import Mathlib

/-!
Verification of the Timovate engine (src/src/lib.rs) against its
natural-language specification.

The development is a shallow embedding of the Rust code:

* Pure helpers (`parse_time_comparison`, `is_file_matching`,
  `is_directory_matching`, `calculate_directory_size`, `update_stats`)
  become Lean functions translated clause by clause from the source.
* The filesystem visible to one run is modelled as a finite tree
  (`FsTree` / `Entries`).  A file node carries its modification time in
  seconds (none when `metadata.modified()` fails) and its byte length.
  A directory node carries `some` listing, or `none` when `fs::read_dir`
  fails on it.  A `badMeta` node stands for an entry whose
  `fs::symlink_metadata` call fails.
* The regex exclusion filter is abstracted as a Boolean predicate on the
  source-side path of an entry (the path is kept as its list of
  components below the traversal root; the predicate stands for the
  composition of path rendering and `Regex::is_match`).
* Rename and parent-directory-creation failures of the Relocator are
  abstracted as a Boolean oracle on the destination-relative path
  (`moveFails`); when the oracle is false the rename succeeds and the
  destination metadata equals the metadata the subtree had at the
  source, as a rename guarantees.
* The level-synchronised rayon fan-out is modelled by processing the
  items of one BFS level in sequence: items of one level are pairwise
  disjoint subtrees, no task reads state written by a sibling task, and
  the level results are collected in item order exactly as
  `process_current_level` collects them, so the sequentialisation is
  faithful.  Work items carry the subtree snapshot taken when they were
  enqueued; a snapshot can never go stale because a moved directory
  enqueues no children and siblings are disjoint.
* The BFS loop of `bfs_and_process` is driven by a fuel argument
  bounding the number of levels; theorems quantify over the fuel, and
  running out of fuel behaves like an exhausted queue.
* The `u64` counters of `FileStats` are modelled as unbounded naturals;
  wrap-around of the hardware counters is not modelled.
-/

/-- Model of `TimeComparison` from lib.rs: `Exact`, `MoreThan`, `LessThan` hold the
day count.  The spec calls these `ExactDays`, `OlderThanDays`,
`NewerThanDays`. -/
inductive TimeComparison where
  | Exact (n : Nat)
  | MoreThan (n : Nat)
  | LessThan (n : Nat)
  deriving DecidableEq, Repr

/-- Model of `OperationMode` from lib.rs. -/
inductive OperationMode where
  | Move
  | Restore
  deriving DecidableEq, Repr

/-- Rust `str::starts_with(c)` on a character list. -/
def startsWithChar (s : List Char) (c : Char) : Bool :=
  s.head? == some c

/-- Strip one leading plus sign, as the sign handling of the Rust `u64`
parser does. -/
def stripPlus : List Char → List Char
  | '+' :: rest => rest
  | other => other

/-- The numeric value of a digit string (most significant digit first). -/
def digitsVal (s : List Char) : Nat :=
  s.foldl (fun a c => a * 10 + (c.toNat - 48)) 0

/-- Rust `str::parse::<u64>` on a character list: an optional single
leading plus sign, then a nonempty run of ASCII digits whose value fits
in 64 bits.  A lone sign, an empty string, any non-digit character and
overflow all yield an error, modelled as `none`.  The accumulated value
is computed without wrap-around; the final bound is equivalent to the
step-by-step overflow check of the Rust implementation because the
accumulator grows monotonically. -/
def parseU64 (s : List Char) : Option Nat :=
  let digits := stripPlus s
  if digits.isEmpty then none
  else if digits.all Char.isDigit then
    if digitsVal digits < 2 ^ 64 then some (digitsVal digits) else none
  else none

/-- Model of `FileMover::parse_time_comparison` from lib.rs lines 101-120.  The
original error message wraps the offending input in single quotes; the
quoting characters are omitted from the modelled message. -/
def parse_time_comparison (input : List Char) : Except String TimeComparison :=
  if startsWithChar input '+' then
    match parseU64 input.tail with
    | some days => .ok (.MoreThan days)
    | none => .error ("Invalid days input: " ++ String.mk input)
  else if startsWithChar input '-' then
    match parseU64 input.tail with
    | some days => .ok (.LessThan days)
    | none => .error ("Invalid days input: " ++ String.mk input)
  else
    match parseU64 input with
    | some days => .ok (.Exact days)
    | none => .error ("Invalid days input: " ++ String.mk input)

/-- Model of `FileMover::is_file_matching` from lib.rs lines 304-322.  `now` and
the modification time are in whole seconds; `mtime = none` models a
failing `metadata.modified()` call.  `SystemTime::duration_since`
returns an error for a future timestamp and `unwrap_or(Duration::ZERO)`
clamps that to zero, which is exactly truncated natural subtraction. -/
def is_file_matching (tc : TimeComparison) (now : Nat) (mtime : Option Nat) : Bool :=
  match mtime with
  | none => false
  | some modified =>
    let age := now - modified
    let age_days := age / (24 * 60 * 60)
    match tc with
    | .Exact n => age_days == n
    | .MoreThan n => decide (age_days > n)
    | .LessThan n => decide (age_days < n)

/-- Spec section 4.1, written from the words of the spec: the file age in
days is `floor((now - modified) / 86400 seconds)` with a negative
duration clamped to zero (`Int.toNat` performs exactly that clamping). -/
def age_days_spec (now modified : Nat) : Nat :=
  (((now : Int) - (modified : Int)).toNat) / 86400

/-- Claim C5, written from the words of the claim: a leading plus sign
followed by a decimal non-negative integer gives `OlderThanDays`, a
leading minus sign gives `NewerThanDays`, a bare decimal non-negative
integer gives `ExactDays`, and every other string is an error (`none`). -/
def parse_time_comparison_claimed (s : List Char) : Option TimeComparison :=
  if startsWithChar s '+' then
    if !s.tail.isEmpty && s.tail.all Char.isDigit then
      some (.MoreThan (digitsVal s.tail))
    else none
  else if startsWithChar s '-' then
    if !s.tail.isEmpty && s.tail.all Char.isDigit then
      some (.LessThan (digitsVal s.tail))
    else none
  else
    if !s.isEmpty && s.all Char.isDigit then
      some (.Exact (digitsVal s))
    else none

/-- Amended acceptance condition for the numeric part of the day string:
after stripping one optional extra plus sign there remains a nonempty
run of ASCII digits whose value is below `2 ^ 64`. -/
def validU64String (s : List Char) : Bool :=
  !(stripPlus s).isEmpty && (stripPlus s).all Char.isDigit
    && decide (digitsVal (stripPlus s) < 2 ^ 64)

/-- Claim C5 as amended: the day-string grammar the code actually
implements, stated declaratively. -/
def parse_time_comparison_amended (s : List Char) : Except String TimeComparison :=
  if startsWithChar s '+' then
    if validU64String s.tail then .ok (.MoreThan (digitsVal (stripPlus s.tail)))
    else .error ("Invalid days input: " ++ String.mk s)
  else if startsWithChar s '-' then
    if validU64String s.tail then .ok (.LessThan (digitsVal (stripPlus s.tail)))
    else .error ("Invalid days input: " ++ String.mk s)
  else
    if validU64String s then .ok (.Exact (digitsVal (stripPlus s)))
    else .error ("Invalid days input: " ++ String.mk s)

mutual

/-- One node of the filesystem as one run of the engine observes it.
`file` carries the modification time in seconds (`none` when
`metadata.modified()` fails) and the byte length reported by
`metadata.len()`.  `dir` carries its listing; `dirUnreadable` is a
directory on which `fs::read_dir` fails.  `badMeta` stands for an entry
whose `fs::symlink_metadata` call fails.  `special` stands for any file
type that is neither a regular file, nor a directory, nor a symbolic
link. -/
inductive FsTree where
  | file (mtime : Option Nat) (size : Nat)
  | dir (listing : Entries)
  | dirUnreadable
  | symlink
  | special
  | badMeta
  deriving DecidableEq

/-- A directory listing: the named entries in the order `fs::read_dir`
yields them. -/
inductive Entries where
  | nil
  | cons (name : String) (tree : FsTree) (rest : Entries)
  deriving DecidableEq

end

/-- Concatenation of two listings. -/
def Entries.append : Entries → Entries → Entries
  | .nil, es => es
  | .cons n t rest, es => .cons n t (rest.append es)

mutual

/-- Model of `FileMover::is_directory_matching` from lib.rs lines 324-406,
applied to the node `t` found at source-side path `path`.  `excl` is the
exclusion filter (any-regex-matches on the rendered path), `tc` and
`now` feed `is_file_matching`.  The function is only ever applied to
directories; on every node whose listing cannot be read — which includes
non-directories, where `fs::read_dir` fails — it returns false after the
exclusion check, as the source does on a `read_dir` error. -/
def is_directory_matching (excl : List String → Bool) (tc : TimeComparison)
    (now : Nat) (path : List String) (t : FsTree) : Bool :=
  if excl path then false
  else
    match t with
    | .dir entries => matchEntries excl tc now path entries
    | _ => false

/-- The entry loop of `is_directory_matching` (lib.rs lines 349-402):
exclusion is checked first, an entry with a failing `symlink_metadata`
and a symbolic link are skipped, a file must satisfy the time predicate,
a directory recurses, any other file type is skipped. -/
def matchEntries (excl : List String → Bool) (tc : TimeComparison)
    (now : Nat) (path : List String) : Entries → Bool
  | .nil => true
  | .cons name child rest =>
    if excl (path ++ [name]) then false
    else
      match child with
      | .badMeta => matchEntries excl tc now path rest
      | .symlink => matchEntries excl tc now path rest
      | .dir l =>
        if is_directory_matching excl tc now (path ++ [name]) (.dir l) then
          matchEntries excl tc now path rest
        else false
      | .dirUnreadable =>
        if is_directory_matching excl tc now (path ++ [name]) .dirUnreadable then
          matchEntries excl tc now path rest
        else false
      | .file mtime _ =>
        if is_file_matching tc now mtime then
          matchEntries excl tc now path rest
        else false
      | .special => matchEntries excl tc now path rest

end

/-- Model of `FileStats` from lib.rs lines 523-528; the three `AtomicU64`
counters, modelled as unbounded naturals. -/
structure FileStats where
  files_moved : Nat
  dirs_moved : Nat
  total_size : Nat
  deriving DecidableEq, Repr

/-- Model of `metadata.len()` of a node; only ever used on file nodes. -/
def FsTree.len : FsTree → Nat
  | .file _ size => size
  | _ => 0

mutual

/-- Model of `FileMover::calculate_directory_size` from lib.rs lines 505-520,
applied to the node found at the given path.  `fs::read_dir` fails on an
unreadable directory and on a non-directory, giving the error case; an
entry whose `symlink_metadata` fails also propagates an error (in the
source both propagate with the question-mark operator).  Symbolic links
are skipped, files add their length, directories recurse, any other
file type adds nothing. -/
def calculate_directory_size : FsTree → Except Unit Nat
  | .dir entries => sizeEntries entries
  | _ => .error ()

/-- The entry loop of `calculate_directory_size`. -/
def sizeEntries : Entries → Except Unit Nat
  | .nil => .ok 0
  | .cons _ child rest =>
    match child with
    | .badMeta => .error ()
    | .symlink => sizeEntries rest
    | .file _ size =>
      match sizeEntries rest with
      | .ok r => .ok (size + r)
      | .error e => .error e
    | .dir l =>
      match calculate_directory_size (.dir l) with
      | .ok s =>
        match sizeEntries rest with
        | .ok r => .ok (s + r)
        | .error e => .error e
      | .error e => .error e
    | .dirUnreadable =>
      match calculate_directory_size .dirUnreadable with
      | .ok s =>
        match sizeEntries rest with
        | .ok r => .ok (s + r)
        | .error e => .error e
      | .error e => .error e
    | .special => sizeEntries rest

end

/-- Model of `FileMover::update_stats` from lib.rs lines 490-503, applied to the
metadata/subtree `t` of the entry just relocated (or, in a dry run,
about to be relocated).  The returned Boolean is true when the
`io::Result` of the directory-size calculation was an error; note that
the directory counter is already incremented before that calculation
runs, mirroring the `fetch_add` that precedes it. -/
def update_stats (stats : FileStats) (t : FsTree) (is_dir : Bool) : FileStats × Bool :=
  if is_dir then
    let stats1 := { stats with dirs_moved := stats.dirs_moved + 1 }
    match calculate_directory_size t with
    | .ok dir_size => ({ stats1 with total_size := stats1.total_size + dir_size }, false)
    | .error _ => (stats1, true)
  else
    ({ stats with files_moved := stats.files_moved + 1,
                  total_size := stats.total_size + t.len }, false)

/-- The error a run of `execute` can end with: a failed rename or failed
parent-directory creation at the given destination-relative path
(`Relocator` errors), or a failed metadata/listing read inside the
post-relocation directory-size computation of `update_stats`. -/
inductive RunError where
  | renameFail (dest : List String)
  | statFail
  deriving DecidableEq, Repr

/-- The per-run configuration the traversal engine reads.  `excl`
abstracts the compiled regex set applied to the rendered source-side
path; `moveFails` abstracts failure of `fs::rename` or of
`create_parent_directories` at a destination-relative path (when it is
false the rename succeeds and the metadata found at the destination
afterwards is the metadata the subtree had at the source).  The verbose
flag only affects logging and is omitted. -/
structure Config where
  time_comparison : TimeComparison
  dry_run : Bool
  mode : OperationMode
  excl : List String → Bool
  moveFails : List String → Bool
  now : Nat

/-- The mutable state of one run: the entries of the traversal root
(`fromE`), the entries of the destination root (`toE`) and the shared
counters. -/
structure RunState where
  fromE : Entries
  toE : Entries
  stats : FileStats
  deriving DecidableEq

/-- Look up the entry with the given name. -/
def getEntry (name : String) : Entries → Option FsTree
  | .nil => none
  | .cons n t rest => if n = name then some t else getEntry name rest

/-- Replace the entry with the given name, or append it. -/
def setEntry (name : String) (t : FsTree) : Entries → Entries
  | .nil => .cons name t .nil
  | .cons n t0 rest => if n = name then .cons n t rest else .cons n t0 (setEntry name t rest)

/-- Delete the entry with the given name. -/
def delEntry (name : String) : Entries → Entries
  | .nil => .nil
  | .cons n t0 rest => if n = name then rest else .cons n t0 (delEntry name rest)

/-- Remove the node at a relative path (the source side of a rename). -/
def Entries.removeAt (es : Entries) : List String → Entries
  | [] => es
  | [name] => delEntry name es
  | name :: sub =>
    match getEntry name es with
    | some (.dir es2) => setEntry name (.dir (es2.removeAt sub)) es
    | _ => es

/-- Place a subtree at a relative path (the destination side of a
rename, after `create_parent_directories` created the missing ancestor
directories).  A non-directory standing where a parent directory is
needed would make `create_dir_all` fail; that failure is part of the
`moveFails` oracle, so here the parent is simply created. -/
def Entries.insertAt (es : Entries) : List String → FsTree → Entries
  | [], _ => es
  | [name], t => setEntry name t es
  | name :: sub, t =>
    let inner := match getEntry name es with
      | some (.dir es2) => es2
      | _ => .nil
    setEntry name (.dir (inner.insertAt sub t)) es

/-- Model of `FileMover::handle_dry_run` from lib.rs lines 416-441.  The dry run
re-reads the source metadata; in the model the snapshot `t` is that
metadata, and the read succeeds because a node whose metadata is
unreadable never reaches `move_entry` (`process_node` skips it
beforehand). -/
def handle_dry_run (st : RunState) (t : FsTree) (is_dir : Bool) :
    RunState × Except RunError Unit :=
  let us := update_stats st.stats t is_dir
  ({ st with stats := us.1 }, if us.2 then .error .statFail else .ok ())

/-- Model of `FileMover::handle_move` from lib.rs lines 443-476 together with
`create_parent_directories` (lines 478-488): when the oracle reports no
failure, the subtree moves from the traversal root to the destination
root and the statistics are updated from the metadata found at the
destination, which is the metadata the subtree had at the source. -/
def handle_move (cfg : Config) (st : RunState) (rel : List String) (t : FsTree)
    (is_dir : Bool) : RunState × Except RunError Unit :=
  if cfg.moveFails rel then (st, .error (.renameFail rel))
  else
    let st1 : RunState :=
      { st with fromE := st.fromE.removeAt rel, toE := st.toE.insertAt rel t }
    let us := update_stats st1.stats t is_dir
    ({ st1 with stats := us.1 }, if us.2 then .error .statFail else .ok ())

/-- Model of `FileMover::move_entry` from lib.rs lines 408-414. -/
def move_entry (cfg : Config) (st : RunState) (rel : List String) (t : FsTree)
    (is_dir : Bool) : RunState × Except RunError Unit :=
  if cfg.dry_run then handle_dry_run st t is_dir
  else handle_move cfg st rel t is_dir

/-- Work items for the children of a directory, in listing order:
`(source-relative path, subtree snapshot)` pairs, as
`process_directory_node` and `initialize_queue` build them. -/
def childItems (rel : List String) : Entries → List (List String × FsTree)
  | .nil => []
  | .cons n t rest => (rel ++ [n], t) :: childItems rel rest

/-- Model of `FileMover::process_node` from lib.rs lines 203-302 (including the
bodies of `process_directory_node` and `process_file_node`): exclusion
first, then metadata, then symlink skip, then the directory/file/other
dispatch.  A directory that qualifies is relocated as a unit and
produces no children; one that does not qualify produces its immediate
children (none when its listing cannot be read).  A matching file is
relocated; files never produce children. -/
def process_node (cfg : Config) (st : RunState) (rel : List String) (t : FsTree) :
    RunState × Except RunError (List (List String × FsTree)) :=
  if cfg.excl rel then (st, .ok [])
  else
    match t with
    | .badMeta => (st, .ok [])
    | .symlink => (st, .ok [])
    | .dir entries =>
      if is_directory_matching cfg.excl cfg.time_comparison cfg.now rel (.dir entries) then
        let me := move_entry cfg st rel (.dir entries) true
        (me.1, me.2.map fun _ => [])
      else
        (st, .ok (childItems rel entries))
    | .dirUnreadable =>
      if is_directory_matching cfg.excl cfg.time_comparison cfg.now rel .dirUnreadable then
        let me := move_entry cfg st rel .dirUnreadable true
        (me.1, me.2.map fun _ => [])
      else
        (st, .ok [])
    | .file mtime size =>
      if is_file_matching cfg.time_comparison cfg.now mtime then
        let me := move_entry cfg st rel (.file mtime size) false
        (me.1, me.2.map fun _ => [])
      else
        (st, .ok [])
    | .special => (st, .ok [])

/-- Model of `FileMover::process_current_level` from lib.rs lines 192-201.  The
rayon tasks of one level act on pairwise disjoint subtrees and only
share the atomic counters, so processing them in item order is
observationally faithful; the per-item results are collected in item
order exactly as `collect()` does. -/
def process_current_level (cfg : Config) (st : RunState) :
    List (List String × FsTree) →
      RunState × List (Except RunError (List (List String × FsTree)))
  | [] => (st, [])
  | (rel, t) :: rest =>
    let pn := process_node cfg st rel t
    let pl := process_current_level cfg pn.1 rest
    (pl.1, pn.2 :: pl.2)

/-- The result loop of `bfs_and_process` (lib.rs lines 149-152): scan
the level results in order, stop at the first error, otherwise gather
all children for the next level. -/
def collectChildren :
    List (Except RunError (List (List String × FsTree))) →
      Except RunError (List (List String × FsTree))
  | [] => .ok []
  | .error e :: _ => .error e
  | .ok cs :: rest =>
    match collectChildren rest with
    | .ok acc => .ok (cs ++ acc)
    | .error e => .error e

/-- Model of `FileMover::bfs_and_process` from lib.rs lines 142-156, driven by a
fuel argument bounding the number of BFS levels; every theorem
quantifies over the fuel.  An exhausted fuel behaves like an exhausted
queue. -/
def bfs_and_process (cfg : Config) :
    Nat → RunState → List (List String × FsTree) → RunState × Except RunError Unit
  | _, st, [] => (st, .ok ())
  | 0, st, _ :: _ => (st, .ok ())
  | fuel + 1, st, item :: queue =>
    let pl := process_current_level cfg st (item :: queue)
    match collectChildren pl.2 with
    | .error e => (pl.1, .error e)
    | .ok next => bfs_and_process cfg fuel pl.1 next

/-- Model of `FileMover::initialize_queue` from lib.rs lines 158-174: the root
listing seeds the queue; the roots exist and are readable (the caller
validates them before the engine runs, spec section 6). -/
def initialize_queue : Entries → List (List String × FsTree) :=
  childItems []

/-- Model of `FileMover::process_files` from lib.rs lines 138-140, for one
traversal direction, starting from the zeroed counters a fresh engine
carries.  Returns the final pair (traversal root entries, destination
root entries), the counters, and the result. -/
def process_files (cfg : Config) (fuel : Nat) (fromE toE : Entries) :
    (Entries × Entries) × FileStats × Except RunError Unit :=
  let st0 : RunState := { fromE := fromE, toE := toE, stats := ⟨0, 0, 0⟩ }
  let b := bfs_and_process cfg fuel st0 (initialize_queue fromE)
  ((b.1.fromE, b.1.toE), b.1.stats, b.2)

/-- Model of `FileMover::execute` from lib.rs lines 122-136: move traverses
source → temporary, restore traverses temporary → source.  The returned
tree pair is always ordered (source entries, temporary entries). -/
def execute (cfg : Config) (fuel : Nat) (source temporary : Entries) :
    (Entries × Entries) × FileStats × Except RunError Unit :=
  match cfg.mode with
  | .Move => process_files cfg fuel source temporary
  | .Restore =>
    let p := process_files cfg fuel temporary source
    ((p.1.2, p.1.1), p.2)

mutual

/-- Claim C3, written from the words of the claim: a directory qualifies
iff it is itself not excluded, its listing succeeds, no entry anywhere
beneath it is excluded, every non-symlink regular file beneath it
satisfies the time predicate, and every subdirectory recursively
qualifies; symbolic links and special file types neither block nor
contribute. -/
def dir_qualifies_spec (excl : List String → Bool) (tc : TimeComparison)
    (now : Nat) (path : List String) (t : FsTree) : Bool :=
  match t with
  | .dir entries =>
    !excl path && noExcludedBeneath excl path entries
      && filesBeneathMatch tc now entries
      && subdirsQualify excl tc now path entries
  | _ => false

/-- No entry anywhere beneath (through readable directories) is
excluded. -/
def noExcludedBeneath (excl : List String → Bool) (path : List String) :
    Entries → Bool
  | .nil => true
  | .cons name child rest =>
    (!excl (path ++ [name])
      && (match child with
          | .dir es => noExcludedBeneath excl (path ++ [name]) es
          | _ => true))
      && noExcludedBeneath excl path rest

/-- Every regular file anywhere beneath (through readable directories)
satisfies the time predicate. -/
def filesBeneathMatch (tc : TimeComparison) (now : Nat) : Entries → Bool
  | .nil => true
  | .cons _ child rest =>
    (match child with
     | .file mtime _ => is_file_matching tc now mtime
     | .dir es => filesBeneathMatch tc now es
     | _ => true)
      && filesBeneathMatch tc now rest

/-- Every immediate subdirectory recursively qualifies. -/
def subdirsQualify (excl : List String → Bool) (tc : TimeComparison)
    (now : Nat) (path : List String) : Entries → Bool
  | .nil => true
  | .cons name child rest =>
    (match child with
     | .dir es => dir_qualifies_spec excl tc now (path ++ [name]) (.dir es)
     | .dirUnreadable => dir_qualifies_spec excl tc now (path ++ [name]) .dirUnreadable
     | _ => true)
      && subdirsQualify excl tc now path rest

end

mutual

/-- Claim C8, written from the words of the claim: the recursive sum of
the sizes of all regular files beneath a directory, with symbolic links
(and other non-regular-file types) excluded from the sum. -/
def dir_bytes_spec : Entries → Nat
  | .nil => 0
  | .cons _ child rest =>
    childBytes child + dir_bytes_spec rest

/-- Bytes one entry contributes to the recursive sum. -/
def childBytes : FsTree → Nat
  | .file _ size => size
  | .dir es => dir_bytes_spec es
  | _ => 0

end

mutual

/-- Every node of the subtree is fully readable: no failing
`symlink_metadata`, no failing `read_dir`.  (Modification-time reads may
still fail; the size computation never looks at them.) -/
def allReadable : FsTree → Bool
  | .badMeta => false
  | .dirUnreadable => false
  | .dir es => allReadableE es
  | _ => true

/-- Model of `allReadable` over a listing. -/
def allReadableE : Entries → Bool
  | .nil => true
  | .cons _ child rest => allReadable child && allReadableE rest

end

mutual

/-- No node of the subtree has a failing `symlink_metadata` call
(failing `read_dir` listings and failing modification-time reads are
still allowed anywhere). -/
def noBadMeta : FsTree → Bool
  | .badMeta => false
  | .dir es => noBadMetaE es
  | _ => true

/-- Model of `noBadMeta` over a listing. -/
def noBadMetaE : Entries → Bool
  | .nil => true
  | .cons _ child rest => noBadMeta child && noBadMetaE rest

end

/-- The resolved command line the engine constructor consumes (`Cli`
from lib.rs lines 17-45); the day string is kept as its character
list. -/
structure Cli where
  source : String
  temporary : String
  days : List Char
  dry_run : Bool
  verbose : Bool
  mode : OperationMode
  exclude : Option (List String)

/-- The pattern-compilation loop of `FileMover::new` (lib.rs lines
76-87): `Regex::new` is abstracted by the `compiles` oracle; the first
failing pattern aborts with an error (the original message wraps the
pattern in single quotes and appends the regex error, both omitted
here). -/
def compile_excludes (compiles : String → Bool) : List String → Except String (List String)
  | [] => .ok []
  | p :: rest =>
    if compiles p then
      match compile_excludes compiles rest with
      | .ok ps => .ok (p :: ps)
      | .error e => .error e
    else .error ("Invalid regex pattern " ++ p)

/-- The constructed engine value (`FileMover` from lib.rs lines 60-69);
compiled regexes are represented by their pattern strings. -/
structure FileMover where
  source : String
  temporary : String
  time_comparison : TimeComparison
  dry_run : Bool
  verbose : Bool
  mode : OperationMode
  exclude_patterns : Option (List String)
  stats : FileStats
  deriving DecidableEq, Repr

/-- Model of `FileMover::new` from lib.rs lines 72-99: parse the day string,
compile the exclusion patterns, and build the engine.  No other
validation is performed. -/
def FileMover.new (compiles : String → Bool) (cli : Cli) : Except String FileMover :=
  match parse_time_comparison cli.days with
  | .error e => .error e
  | .ok tc =>
    match cli.exclude with
    | some patterns =>
      match compile_excludes compiles patterns with
      | .ok ps =>
        .ok { source := cli.source, temporary := cli.temporary,
              time_comparison := tc, dry_run := cli.dry_run,
              verbose := cli.verbose, mode := cli.mode,
              exclude_patterns := some ps, stats := ⟨0, 0, 0⟩ }
      | .error e => .error e
    | none =>
      .ok { source := cli.source, temporary := cli.temporary,
            time_comparison := tc, dry_run := cli.dry_run,
            verbose := cli.verbose, mode := cli.mode,
            exclude_patterns := none, stats := ⟨0, 0, 0⟩ }

/-- Configuration of the failing restore run of claim C1: mode restore,
day string "-10" (files newer than 10 days), no exclusions, no rename
failures, clock at 40 days past the epoch of the file below. -/
def cfgC1 : Config :=
  { time_comparison := .LessThan 10, dry_run := false, mode := .Restore,
    excl := fun _ => false, moveFails := fun _ => false, now := 3456000 }

/-- The temporary root of claim C1: one 14-byte file, last modified 40
days before `cfgC1.now` (the scenario of
`test_restore_ignores_days_parameter` in tests/tests.rs). -/
def tempTreeC1 : Entries :=
  .cons "temp_file.txt" (.file (some 0) 14) .nil

/-- Configuration of the claim C9 counterexample and the claim C10
relocation scenario: move mode, day string "+0", no exclusions, no
rename or parent-creation failures, clock two days past the epoch. -/
def cfgC9 : Config :=
  { time_comparison := .MoreThan 0, dry_run := false, mode := .Move,
    excl := fun _ => false, moveFails := fun _ => false, now := 172800 }

/-- Source root for `cfgC9`: a directory `d` holding an entry `x` whose
`symlink_metadata` fails and a two-day-old file `f`. -/
def srcC9 : Entries :=
  .cons "d" (.dir (.cons "x" .badMeta (.cons "f" (.file (some 0) 5) .nil))) .nil

/-- Configuration of the partial-failure scenario of claim C9: as
`cfgC9`, but the rename of destination-relative path `A/bad` fails. -/
def cfgC9b : Config :=
  { time_comparison := .MoreThan 0, dry_run := false, mode := .Move,
    excl := fun _ => false,
    moveFails := fun p => p == ["A", "bad"], now := 172800 }

/-- Source root for `cfgC9b`: a qualifying two-day-old file `f1` at
level one; a non-qualifying directory `A` whose level-two file `bad`
qualifies (but whose rename will fail) and whose level-two subdirectory
`sub` does not qualify because of the fresh file `new`, leaving the
qualifying level-three file `f3` for a third level that is never
reached. -/
def srcC9b : Entries :=
  .cons "f1" (.file (some 0) 3)
    (.cons "A"
      (.dir
        (.cons "bad" (.file (some 0) 7)
          (.cons "sub"
            (.dir
              (.cons "f3" (.file (some 0) 11)
                (.cons "new" (.file (some 172800) 1) .nil)))
            .nil)))
      .nil)

/-- The command line of claim C2: identical source and temporary roots,
day string "0", no exclusions (the scenario of
`test_move_with_same_source_and_destination` in tests/tests.rs). -/
def cliC2 : Cli :=
  { source := "/data", temporary := "/data", days := String.toList "0",
    dry_run := false, verbose := false, mode := .Move, exclude := none }

theorem parseU64_eq_spec (s : List Char) :
    parseU64 s = if validU64String s then some (digitsVal (stripPlus s)) else none := by
  unfold parseU64 validU64String
  by_cases h1 : (stripPlus s).isEmpty <;>
    by_cases h2 : (stripPlus s).all Char.isDigit <;>
      by_cases h3 : digitsVal (stripPlus s) < 2 ^ 64 <;>
        simp [h1, h2, h3]

/-- Claim C5 (corrected): `parse_time_comparison` realises the amended
grammar — a leading plus selects `OlderThanDays`, a leading minus
selects `NewerThanDays`, otherwise `ExactDays`, where the remainder must
be a string accepted by the Rust `u64` parser: one further optional plus
sign, then a nonempty run of ASCII digits whose value is below
`2 ^ 64`; every other string is a construction-time error. -/
theorem c5_day_string_grammar (s : List Char) :
    parse_time_comparison s = parse_time_comparison_amended s := by
  unfold parse_time_comparison parse_time_comparison_amended
  simp only [parseU64_eq_spec]
  by_cases h1 : startsWithChar s '+'
  · cases h : validU64String s.tail <;> simp [h1, h]
  · by_cases h2 : startsWithChar s '-'
    · cases h : validU64String s.tail <;> simp [h1, h2, h]
    · cases h : validU64String s <;> simp [h1, h2, h]

/-- Claim C5 counterexample: the claim, as stated, fails on concrete
inputs.  The string "++30" is not a plus sign followed by a decimal
non-negative integer, so the claim demands an error, yet the code
returns `OlderThanDays 30` (the Rust `u64` parser strips a second plus
sign).  The string "18446744073709551616" is a decimal non-negative
integer, so the claim demands `ExactDays` of it, yet the code errors
because the value overflows `u64`. -/
theorem c5_counterexample :
    parse_time_comparison (String.toList "++30") = .ok (.MoreThan 30)
      ∧ parse_time_comparison_claimed (String.toList "++30") = none
      ∧ parse_time_comparison (String.toList "18446744073709551616")
          = .error ("Invalid days input: " ++ "18446744073709551616")
      ∧ parse_time_comparison_claimed (String.toList "18446744073709551616")
          = some (.Exact 18446744073709551616) := by
  refine ⟨rfl, rfl, rfl, rfl⟩

/-- Claim C4 (confirmed): for a readable modification time the age in
days is `floor((now - modified) / 86400)` with negative durations
clamped to zero, `ExactDays n` matches iff the age equals `n`,
`OlderThanDays n` iff it exceeds `n`, `NewerThanDays n` iff it is below
`n`; a file exactly `n` days old matches neither `OlderThanDays n` nor
`NewerThanDays n`; and a file whose modification time cannot be read
never matches. -/
theorem c4_time_predicate (now modified n : Nat) :
    (is_file_matching (.Exact n) now (some modified)
        = decide (age_days_spec now modified = n))
      ∧ (is_file_matching (.MoreThan n) now (some modified)
          = decide (age_days_spec now modified > n))
      ∧ (is_file_matching (.LessThan n) now (some modified)
          = decide (age_days_spec now modified < n))
      ∧ (is_file_matching (.MoreThan (age_days_spec now modified)) now (some modified)
          = false)
      ∧ (is_file_matching (.LessThan (age_days_spec now modified)) now (some modified)
          = false)
      ∧ (∀ tc, is_file_matching tc now none = false) := by
  have key : age_days_spec now modified = (now - modified) / (24 * 60 * 60) := by
    unfold age_days_spec
    have h : (((now : Int) - (modified : Int)).toNat) = now - modified := by omega
    rw [h]
  refine ⟨?_, ?_, ?_, ?_, ?_, ?_⟩
  · simp only [is_file_matching, key]
    by_cases h : (now - modified) / (24 * 60 * 60) = n <;> simp [h]
  · simp [is_file_matching, key]
  · simp [is_file_matching, key]
  · simp [is_file_matching, key]
  · simp [is_file_matching, key]
  · intro tc; cases tc <;> rfl

/-- Claim C1 (code bug): in restore mode the engine still applies the
configured time predicate.  With day string "-10" and a temporary root
holding one file modified 40 days ago, `execute` relocates nothing:
the temporary root is returned unchanged, the source root stays empty,
and all counters are zero — while the spec and the test
`test_restore_ignores_days_parameter` demand that the file be restored
unconditionally. -/
theorem c1_restore_applies_time_predicate :
    execute cfgC1 4 Entries.nil tempTreeC1
      = ((Entries.nil, tempTreeC1), ⟨0, 0, 0⟩, .ok ()) := rfl

/-- Claim C2 (code bug): `FileMover::new` performs no comparison of the
two root paths.  With source and temporary both "/data" (and a valid
day string and no exclusion patterns) construction succeeds and an
engine value is produced — while the spec and the test
`test_move_with_same_source_and_destination` demand a construction-time
error. -/
theorem c2_new_accepts_identical_roots :
    FileMover.new (fun _ => true) cliC2
      = .ok { source := "/data", temporary := "/data",
              time_comparison := .Exact 0, dry_run := false,
              verbose := false, mode := .Move,
              exclude_patterns := none, stats := ⟨0, 0, 0⟩ } := rfl

mutual

theorem is_directory_matching_eq_spec_aux (excl : List String → Bool)
    (tc : TimeComparison) (now : Nat) :
    ∀ path t, is_directory_matching excl tc now path t
      = dir_qualifies_spec excl tc now path t
  | path, .file m s => by
    cases hexcl : excl path <;>
      simp [is_directory_matching, dir_qualifies_spec, hexcl]
  | path, .dirUnreadable => by
    cases hexcl : excl path <;>
      simp [is_directory_matching, dir_qualifies_spec, hexcl]
  | path, .symlink => by
    cases hexcl : excl path <;>
      simp [is_directory_matching, dir_qualifies_spec, hexcl]
  | path, .special => by
    cases hexcl : excl path <;>
      simp [is_directory_matching, dir_qualifies_spec, hexcl]
  | path, .badMeta => by
    cases hexcl : excl path <;>
      simp [is_directory_matching, dir_qualifies_spec, hexcl]
  | path, .dir es => by
    have ih := matchEntries_eq_spec excl tc now path es
    cases hexcl : excl path
    · simp only [is_directory_matching, dir_qualifies_spec, hexcl, ih]
      simp [Bool.and_assoc]
    · simp [is_directory_matching, dir_qualifies_spec, hexcl]

theorem matchEntries_eq_spec (excl : List String → Bool)
    (tc : TimeComparison) (now : Nat) :
    ∀ path es, matchEntries excl tc now path es
      = (noExcludedBeneath excl path es
          && (filesBeneathMatch tc now es && subdirsQualify excl tc now path es))
  | _, .nil => rfl
  | path, .cons name child rest => by
    have ihr := matchEntries_eq_spec excl tc now path rest
    cases hexcl : excl (path ++ [name])
    · cases child with
      | file m sz =>
        simp only [matchEntries, noExcludedBeneath, filesBeneathMatch,
          subdirsQualify, hexcl, ihr]
        cases h0 : is_file_matching tc now m <;>
          cases h4 : noExcludedBeneath excl path rest <;>
            cases h5 : filesBeneathMatch tc now rest <;>
              cases h6 : subdirsQualify excl tc now path rest <;>
                simp [h0, h4, h5, h6]
      | dir es2 =>
        have iht := is_directory_matching_eq_spec_aux excl tc now
          (path ++ [name]) (.dir es2)
        simp only [matchEntries, noExcludedBeneath, filesBeneathMatch,
          subdirsQualify, hexcl, ihr, iht, dir_qualifies_spec]
        cases h1 : noExcludedBeneath excl (path ++ [name]) es2 <;>
          cases h2 : filesBeneathMatch tc now es2 <;>
            cases h3 : subdirsQualify excl tc now (path ++ [name]) es2 <;>
              cases h4 : noExcludedBeneath excl path rest <;>
                cases h5 : filesBeneathMatch tc now rest <;>
                  cases h6 : subdirsQualify excl tc now path rest <;>
                    simp [h1, h2, h3, h4, h5, h6]
      | dirUnreadable =>
        simp [matchEntries, noExcludedBeneath, filesBeneathMatch,
          subdirsQualify, hexcl, ihr, is_directory_matching,
          dir_qualifies_spec]
      | symlink =>
        simp only [matchEntries, noExcludedBeneath, filesBeneathMatch,
          subdirsQualify, hexcl, ihr]
        simp
      | special =>
        simp only [matchEntries, noExcludedBeneath, filesBeneathMatch,
          subdirsQualify, hexcl, ihr]
        simp
      | badMeta =>
        simp only [matchEntries, noExcludedBeneath, filesBeneathMatch,
          subdirsQualify, hexcl, ihr]
        simp
    · cases child <;>
        simp [matchEntries, noExcludedBeneath, filesBeneathMatch,
          subdirsQualify, hexcl]

end

/-- Claim C3 (confirmed): subtree qualification returns true exactly
under the conditions the claim enumerates — the directory itself not
excluded, its listing readable, no entry anywhere beneath it excluded,
every regular file beneath it satisfying the time predicate, and every
subdirectory recursively qualifying, with symbolic links and special
file types neither blocking nor contributing and an empty directory
qualifying. -/
theorem c3_subtree_qualification (excl : List String → Bool)
    (tc : TimeComparison) (now : Nat) (path : List String) (t : FsTree) :
    is_directory_matching excl tc now path t
      = dir_qualifies_spec excl tc now path t :=
  is_directory_matching_eq_spec_aux excl tc now path t

theorem matchEntries_skip_badMeta (excl : List String → Bool)
    (tc : TimeComparison) (now : Nat) (path : List String) (name : String)
    (es2 : Entries) (h : excl (path ++ [name]) = false) :
    ∀ es1 : Entries,
      matchEntries excl tc now path (es1.append (.cons name .badMeta es2))
        = matchEntries excl tc now path (es1.append es2)
  | .nil => by
    simp [Entries.append, matchEntries, h]
  | .cons n c r => by
    have ih := matchEntries_skip_badMeta excl tc now path name es2 h r
    cases hexcl : excl (path ++ [n])
    · cases c <;> simp [Entries.append, matchEntries, hexcl, ih]
    · cases c <;> simp [Entries.append, matchEntries, hexcl]

/-- Claim C10 (confirmed): during subtree qualification an entry whose
metadata cannot be read is silently skipped — inserting such an entry
(at a non-excluded name) anywhere in a listing leaves the qualification
verdict unchanged — while a directory whose own listing cannot be read
never qualifies; consequently a directory containing an unreadable
entry can still be relocated as a whole, as the concrete move run of
`cfgC9`/`srcC9` shows (directory `d` lands under the destination root
even though its entry `x` is unreadable). -/
theorem c10_unreadable_entry_skipped (excl : List String → Bool)
    (tc : TimeComparison) (now : Nat) (path : List String) (name : String)
    (es1 es2 : Entries) (h : excl (path ++ [name]) = false) :
    (is_directory_matching excl tc now path
        (.dir (es1.append (.cons name .badMeta es2)))
      = is_directory_matching excl tc now path (.dir (es1.append es2)))
    ∧ (∀ p, is_directory_matching excl tc now p .dirUnreadable = false)
    ∧ (execute cfgC9 2 srcC9 .nil).1 = (Entries.nil, srcC9) := by
  refine ⟨?_, ?_, rfl⟩
  · cases hexcl : excl path <;>
      simp [is_directory_matching, hexcl, matchEntries_skip_badMeta excl tc now path name es2 h es1]
  · intro p
    cases hexcl : excl p <;> simp [is_directory_matching, hexcl]

/-- Witness for claim C10 at a concrete input. -/
theorem c10_witness :
    ((fun (_ : List String) => false) ([] ++ ["x"]) = false)
      ∧ ((is_directory_matching (fun _ => false) (.Exact 0) 0 []
            (.dir (Entries.nil.append (.cons "x" .badMeta Entries.nil)))
          = is_directory_matching (fun _ => false) (.Exact 0) 0 []
            (.dir (Entries.nil.append Entries.nil)))
        ∧ (∀ p, is_directory_matching (fun _ => false) (.Exact 0) 0 p .dirUnreadable
            = false)
        ∧ (execute cfgC9 2 srcC9 .nil).1 = (Entries.nil, srcC9)) :=
  ⟨rfl, c10_unreadable_entry_skipped (fun _ => false) (.Exact 0) 0 [] "x"
    Entries.nil Entries.nil rfl⟩

theorem process_node_dry_keeps_fs (cfg : Config) (h : cfg.dry_run = true)
    (st : RunState) (rel : List String) (t : FsTree) :
    ((process_node cfg st rel t).1.fromE = st.fromE)
      ∧ ((process_node cfg st rel t).1.toE = st.toE) := by
  unfold process_node move_entry
  cases hexcl : cfg.excl rel
  · cases t <;> simp only [hexcl, Bool.false_eq_true, if_false, h, if_true] <;>
      constructor <;> (try split) <;> simp [handle_dry_run]
  · simp [hexcl]

theorem process_level_dry_keeps_fs (cfg : Config) (h : cfg.dry_run = true) :
    ∀ (items : List (List String × FsTree)) (st : RunState),
      ((process_current_level cfg st items).1.fromE = st.fromE)
        ∧ ((process_current_level cfg st items).1.toE = st.toE)
  | [], st => ⟨rfl, rfl⟩
  | (rel, t) :: rest, st => by
    have hn := process_node_dry_keeps_fs cfg h st rel t
    have ih := process_level_dry_keeps_fs cfg h rest (process_node cfg st rel t).1
    unfold process_current_level
    exact ⟨ih.1.trans hn.1, ih.2.trans hn.2⟩

theorem bfs_dry_keeps_fs (cfg : Config) (h : cfg.dry_run = true) :
    ∀ (fuel : Nat) (queue : List (List String × FsTree)) (st : RunState),
      ((bfs_and_process cfg fuel st queue).1.fromE = st.fromE)
        ∧ ((bfs_and_process cfg fuel st queue).1.toE = st.toE)
  | 0, [], _ => ⟨rfl, rfl⟩
  | _ + 1, [], _ => ⟨rfl, rfl⟩
  | 0, _ :: _, _ => ⟨rfl, rfl⟩
  | fuel + 1, q :: qs, st => by
    have hl := process_level_dry_keeps_fs cfg h (q :: qs) st
    unfold bfs_and_process
    cases hc : collectChildren (process_current_level cfg st (q :: qs)).2 with
    | error e => simpa [hc] using hl
    | ok next =>
      have ih := bfs_dry_keeps_fs cfg h fuel next
        (process_current_level cfg st (q :: qs)).1
      simp only [hc]
      exact ⟨ih.1.trans hl.1, ih.2.trans hl.2⟩

theorem process_files_dry_keeps_fs (cfg : Config) (h : cfg.dry_run = true)
    (fuel : Nat) (f t : Entries) :
    (process_files cfg fuel f t).1 = (f, t) := by
  unfold process_files
  have hb := bfs_dry_keeps_fs cfg h fuel (initialize_queue f) ⟨f, t, ⟨0, 0, 0⟩⟩
  dsimp only
  rw [hb.1, hb.2]

/-- Claim C6 (confirmed): with `dry_run = true`, any number of repeated
`execute` runs leaves both the source tree and the destination tree
exactly as they were — no entry is created, removed, renamed or
resized and no modification time changes (the trees carry sizes and
modification times, so tree equality captures all of these). -/
theorem c6_dry_run_never_mutates (cfg : Config) (fuel n : Nat)
    (src tmp : Entries) :
    Nat.iterate
      (fun p : Entries × Entries =>
        (execute { cfg with dry_run := true } fuel p.1 p.2).1) n (src, tmp)
      = (src, tmp) := by
  have hd : ({ cfg with dry_run := true } : Config).dry_run = true := rfl
  have single : ∀ p : Entries × Entries,
      (execute { cfg with dry_run := true } fuel p.1 p.2).1 = (p.1, p.2) := by
    intro p
    unfold execute
    cases hm : ({ cfg with dry_run := true } : Config).mode
    · exact process_files_dry_keeps_fs _ rfl fuel p.1 p.2
    · dsimp only
      have h2 := process_files_dry_keeps_fs
        { cfg with dry_run := true, mode := OperationMode.Restore } rfl fuel p.2 p.1
      rw [h2]
  induction n with
  | zero => rfl
  | succ k ih =>
    rw [Function.iterate_succ_apply, single (src, tmp)]
    exact ih

theorem process_node_dry_live (cfg : Config) (hmf : ∀ p, cfg.moveFails p = false)
    (stD stL : RunState) (hs : stD.stats = stL.stats) (rel : List String) (t : FsTree) :
    ((process_node { cfg with dry_run := true } stD rel t).1.stats
       = (process_node { cfg with dry_run := false } stL rel t).1.stats)
    ∧ ((process_node { cfg with dry_run := true } stD rel t).2
       = (process_node { cfg with dry_run := false } stL rel t).2) := by
  unfold process_node move_entry
  dsimp only
  cases hexcl : cfg.excl rel
  · cases t with
    | badMeta => exact ⟨hs, rfl⟩
    | symlink => exact ⟨hs, rfl⟩
    | special => exact ⟨hs, rfl⟩
    | file m sz =>
      cases hm : is_file_matching cfg.time_comparison cfg.now m
      · simp [hm, hs]
      · simp [hm, handle_dry_run, handle_move, hmf rel, hs]
    | dir es =>
      cases hd : is_directory_matching cfg.excl cfg.time_comparison cfg.now rel (.dir es)
      · simp [hd, hs]
      · simp [hd, handle_dry_run, handle_move, hmf rel, hs]
    | dirUnreadable =>
      cases hd : is_directory_matching cfg.excl cfg.time_comparison cfg.now rel .dirUnreadable
      · simp [hd, hs]
      · simp [hd, handle_dry_run, handle_move, hmf rel, hs]
  · simp [hexcl, hs]

theorem process_level_dry_live (cfg : Config) (hmf : ∀ p, cfg.moveFails p = false) :
    ∀ (items : List (List String × FsTree)) (stD stL : RunState),
      stD.stats = stL.stats →
      ((process_current_level { cfg with dry_run := true } stD items).1.stats
         = (process_current_level { cfg with dry_run := false } stL items).1.stats)
      ∧ ((process_current_level { cfg with dry_run := true } stD items).2
         = (process_current_level { cfg with dry_run := false } stL items).2)
  | [], _, _, hs => ⟨hs, rfl⟩
  | (rel, t) :: rest, stD, stL, hs => by
    have hn := process_node_dry_live cfg hmf stD stL hs rel t
    have ih := process_level_dry_live cfg hmf rest
      (process_node { cfg with dry_run := true } stD rel t).1
      (process_node { cfg with dry_run := false } stL rel t).1 hn.1
    unfold process_current_level
    dsimp only
    exact ⟨ih.1, by rw [hn.2, ih.2]⟩

theorem bfs_dry_live (cfg : Config) (hmf : ∀ p, cfg.moveFails p = false) :
    ∀ (fuel : Nat) (queue : List (List String × FsTree)) (stD stL : RunState),
      stD.stats = stL.stats →
      ((bfs_and_process { cfg with dry_run := true } fuel stD queue).1.stats
         = (bfs_and_process { cfg with dry_run := false } fuel stL queue).1.stats)
      ∧ ((bfs_and_process { cfg with dry_run := true } fuel stD queue).2
         = (bfs_and_process { cfg with dry_run := false } fuel stL queue).2)
  | 0, [], _, _, hs => ⟨hs, rfl⟩
  | _ + 1, [], _, _, hs => ⟨hs, rfl⟩
  | 0, _ :: _, _, _, hs => ⟨hs, rfl⟩
  | fuel + 1, q :: qs, stD, stL, hs => by
    have hl := process_level_dry_live cfg hmf (q :: qs) stD stL hs
    unfold bfs_and_process
    dsimp only
    rw [← hl.2]
    cases hc : collectChildren
        (process_current_level { cfg with dry_run := true } stD (q :: qs)).2 with
    | error e => simp [hc, hl.1]
    | ok next =>
      have ih := bfs_dry_live cfg hmf fuel next
        (process_current_level { cfg with dry_run := true } stD (q :: qs)).1
        (process_current_level { cfg with dry_run := false } stL (q :: qs)).1 hl.1
      simp only [hc]
      exact ih

/-- Claim C7 (confirmed, under the proviso that no rename or
parent-creation failure occurs — a live run that hits one stops early
and then necessarily reports less): a dry run reports exactly the
counters the live run of the same configuration on the same starting
trees reports, and it does so without mutating either tree. -/
theorem c7_dry_run_reports_live_totals (cfg : Config) (fuel : Nat)
    (src tmp : Entries) (hmf : ∀ p, cfg.moveFails p = false) :
    ((execute { cfg with dry_run := true } fuel src tmp).2.1
       = (execute { cfg with dry_run := false } fuel src tmp).2.1)
    ∧ ((execute { cfg with dry_run := true } fuel src tmp).1 = (src, tmp)) := by
  unfold execute
  dsimp only
  cases hm : cfg.mode
  · unfold process_files
    dsimp only
    have hb := bfs_dry_live { cfg with mode := OperationMode.Move } hmf fuel
      (initialize_queue src) ⟨src, tmp, ⟨0, 0, 0⟩⟩ ⟨src, tmp, ⟨0, 0, 0⟩⟩ rfl
    have hf := bfs_dry_keeps_fs { cfg with dry_run := true, mode := OperationMode.Move }
      rfl fuel (initialize_queue src) ⟨src, tmp, ⟨0, 0, 0⟩⟩
    exact ⟨hb.1, by rw [hf.1, hf.2]⟩
  · unfold process_files
    dsimp only
    have hb := bfs_dry_live { cfg with mode := OperationMode.Restore } hmf fuel
      (initialize_queue tmp) ⟨tmp, src, ⟨0, 0, 0⟩⟩ ⟨tmp, src, ⟨0, 0, 0⟩⟩ rfl
    have hf := bfs_dry_keeps_fs { cfg with dry_run := true, mode := OperationMode.Restore }
      rfl fuel (initialize_queue tmp) ⟨tmp, src, ⟨0, 0, 0⟩⟩
    exact ⟨hb.1, by rw [hf.1, hf.2]⟩

/-- Witness for claim C7 at a concrete input: the move configuration
`cfgC9` (whose rename oracle never fails) on the source tree `srcC9b`
and an empty destination. -/
theorem c7_witness :
    ((execute { cfgC9 with dry_run := true } 3 srcC9b .nil).2.1
       = (execute { cfgC9 with dry_run := false } 3 srcC9b .nil).2.1)
    ∧ ((execute { cfgC9 with dry_run := true } 3 srcC9b .nil).1
       = (srcC9b, .nil)) :=
  c7_dry_run_reports_live_totals cfgC9 3 srcC9b .nil (fun _ => rfl)

theorem sizeEntries_eq_spec :
    ∀ es : Entries, allReadableE es = true → sizeEntries es = .ok (dir_bytes_spec es)
  | .nil, _ => rfl
  | .cons n child rest, h => by
    have hsplit : allReadable child = true ∧ allReadableE rest = true := by
      simpa [allReadableE] using h
    have ihr := sizeEntries_eq_spec rest hsplit.2
    cases child with
    | badMeta => simp [allReadable] at hsplit
    | dirUnreadable => simp [allReadable] at hsplit
    | symlink => simp [sizeEntries, dir_bytes_spec, childBytes, ihr]
    | special => simp [sizeEntries, dir_bytes_spec, childBytes, ihr]
    | file m sz => simp [sizeEntries, dir_bytes_spec, childBytes, ihr]
    | dir es2 =>
      have ih2 := sizeEntries_eq_spec es2 (by simpa [allReadable] using hsplit.1)
      simp [sizeEntries, calculate_directory_size, dir_bytes_spec, childBytes, ih2, ihr]

/-- Claim C8 counterexample: the claim fails when the relocated
directory contains an entry whose metadata cannot be read.  In the
`cfgC9`/`srcC9` move run the directory `d` (holding the unreadable
entry `x` and a 5-byte regular file `f`) is relocated as one unit —
it lands under the destination root — and the directory counter rises
by one, but the byte counter rises by 0, not by the recursive sum 5 of
the regular-file sizes beneath `d`: `update_stats` increments the
directory counter and then the size computation errors on `x` before
any bytes are credited. -/
theorem c8_counterexample :
    (execute cfgC9 2 srcC9 .nil).1 = (Entries.nil, srcC9)
    ∧ (execute cfgC9 2 srcC9 .nil).2.1
        = { files_moved := 0, dirs_moved := 1, total_size := 0 }
    ∧ dir_bytes_spec (.cons "x" .badMeta (.cons "f" (.file (some 0) 5) .nil)) = 5
    ∧ update_stats ⟨0, 0, 0⟩
        (.dir (.cons "x" .badMeta (.cons "f" (.file (some 0) 5) .nil))) true
      = (⟨0, 1, 0⟩, true) :=
  ⟨rfl, rfl, rfl, rfl⟩

/-- Claim C8 as amended: whenever a directory is relocated as one unit,
the directory counter rises by exactly one and the file counter does
not move; when every entry beneath the directory is readable, the byte
counter rises by exactly the recursive sum of the sizes of the regular
files beneath it, symbolic links (and other non-regular entries)
excluded — but when the post-relocation size computation fails on an
unreadable entry or listing, no bytes are credited at all and the
error is reported (and then propagates, claim C9). -/
theorem c8_directory_unit_stats (stats : FileStats) (es : Entries) :
    ((update_stats stats (.dir es) true).1.files_moved = stats.files_moved)
    ∧ ((update_stats stats (.dir es) true).1.dirs_moved = stats.dirs_moved + 1)
    ∧ (allReadableE es = true →
        update_stats stats (.dir es) true
          = ({ files_moved := stats.files_moved,
               dirs_moved := stats.dirs_moved + 1,
               total_size := stats.total_size + dir_bytes_spec es }, false))
    ∧ (sizeEntries es = .error () →
        update_stats stats (.dir es) true
          = ({ files_moved := stats.files_moved,
               dirs_moved := stats.dirs_moved + 1,
               total_size := stats.total_size }, true)) := by
  refine ⟨?_, ?_, ?_, ?_⟩
  · unfold update_stats
    cases hsz : calculate_directory_size (FsTree.dir es) <;> simp [hsz]
  · unfold update_stats
    cases hsz : calculate_directory_size (FsTree.dir es) <;> simp [hsz]
  · intro h
    unfold update_stats
    simp [calculate_directory_size, sizeEntries_eq_spec es h]
  · intro h
    unfold update_stats
    simp [calculate_directory_size, h]

/-- Witness for claim C8 at concrete inputs: a fully readable directory
(a 5-byte file, a symbolic link and a subdirectory with a 7-byte file;
12 bytes credited, one directory and no files counted) and a directory
with an unreadable entry (no bytes credited, the error flagged). -/
theorem c8_witness :
    (update_stats ⟨2, 3, 10⟩
        (.dir (.cons "a" (.file (some 0) 5)
          (.cons "s" .symlink
            (.cons "d" (.dir (.cons "b" (.file none 7) .nil)) .nil)))) true
      = (⟨2, 4, 22⟩, false))
    ∧ (update_stats ⟨2, 3, 10⟩ (.dir (.cons "x" .badMeta .nil)) true
      = (⟨2, 4, 10⟩, true)) :=
  ⟨(c8_directory_unit_stats ⟨2, 3, 10⟩ _).2.2.1 rfl,
   (c8_directory_unit_stats ⟨2, 3, 10⟩ _).2.2.2 rfl⟩

theorem sizeEntries_ok_of_match_bounded (excl : List String → Bool)
    (tc : TimeComparison) (now : Nat) (k : Nat) :
    ∀ (path : List String) (es : Entries), sizeOf es < k →
      noBadMetaE es = true → matchEntries excl tc now path es = true →
      ∃ n, sizeEntries es = .ok n := by
  induction k with
  | zero => intro path es hk; omega
  | succ k ih =>
    intro path es hk hnb hm
    cases es with
    | nil => exact ⟨0, rfl⟩
    | cons name child rest =>
      have hsplit : noBadMeta child = true ∧ noBadMetaE rest = true := by
        simpa [noBadMetaE] using hnb
      have hkrest : sizeOf rest < k := by
        have : sizeOf rest < sizeOf (Entries.cons name child rest) := by simp
        omega
      cases child with
      | badMeta => simp [noBadMeta] at hsplit
      | symlink =>
        cases hexcl : excl (path ++ [name]) with
        | true => revert hm; simp [matchEntries, hexcl]
        | false =>
          have heq : matchEntries excl tc now path (Entries.cons name .symlink rest)
              = matchEntries excl tc now path rest := by
            simp [matchEntries, hexcl]
          obtain ⟨r, hr⟩ := ih path rest hkrest hsplit.2 (heq ▸ hm)
          exact ⟨r, by simp [sizeEntries, hr]⟩
      | special =>
        cases hexcl : excl (path ++ [name]) with
        | true => revert hm; simp [matchEntries, hexcl]
        | false =>
          have heq : matchEntries excl tc now path (Entries.cons name .special rest)
              = matchEntries excl tc now path rest := by
            simp [matchEntries, hexcl]
          obtain ⟨r, hr⟩ := ih path rest hkrest hsplit.2 (heq ▸ hm)
          exact ⟨r, by simp [sizeEntries, hr]⟩
      | file m sz =>
        cases hexcl : excl (path ++ [name]) with
        | true => revert hm; simp [matchEntries, hexcl]
        | false =>
          cases hf : is_file_matching tc now m with
          | false => revert hm; simp [matchEntries, hexcl, hf]
          | true =>
            have heq : matchEntries excl tc now path
                (Entries.cons name (.file m sz) rest)
                = matchEntries excl tc now path rest := by
              simp [matchEntries, hexcl, hf]
            obtain ⟨r, hr⟩ := ih path rest hkrest hsplit.2 (heq ▸ hm)
            exact ⟨sz + r, by simp [sizeEntries, hr]⟩
      | dirUnreadable =>
        cases hexcl : excl (path ++ [name]) with
        | true => revert hm; simp [matchEntries, hexcl]
        | false => revert hm; simp [matchEntries, hexcl, is_directory_matching]
      | dir es2 =>
        cases hexcl : excl (path ++ [name]) with
        | true => revert hm; simp [matchEntries, hexcl]
        | false =>
          cases hd : is_directory_matching excl tc now (path ++ [name]) (.dir es2) with
          | false => revert hm; simp [matchEntries, hexcl, hd]
          | true =>
            have heq : matchEntries excl tc now path
                (Entries.cons name (.dir es2) rest)
                = matchEntries excl tc now path rest := by
              simp [matchEntries, hexcl, hd]
            have heq2 : is_directory_matching excl tc now (path ++ [name]) (.dir es2)
                = matchEntries excl tc now (path ++ [name]) es2 := by
              simp [is_directory_matching, hexcl]
            have hk2 : sizeOf es2 < k := by
              have : sizeOf es2
                  < sizeOf (Entries.cons name (FsTree.dir es2) rest) := by
                simp
                omega
              omega
            obtain ⟨s2, hs2⟩ := ih (path ++ [name]) es2 hk2
              (by simpa [noBadMeta] using hsplit.1) (heq2 ▸ hd)
            obtain ⟨r, hr⟩ := ih path rest hkrest hsplit.2 (heq ▸ hm)
            exact ⟨s2 + r, by simp [sizeEntries, calculate_directory_size, hs2, hr]⟩

theorem sizeEntries_ok_of_match (excl : List String → Bool) (tc : TimeComparison)
    (now : Nat) (path : List String) (es : Entries) (hnb : noBadMetaE es = true)
    (hm : matchEntries excl tc now path es = true) :
    ∃ n, sizeEntries es = .ok n :=
  sizeEntries_ok_of_match_bounded excl tc now (sizeOf es + 1) path es
    (by omega) hnb hm

theorem childItems_noBadMeta :
    ∀ (rel : List String) (es : Entries), noBadMetaE es = true →
      ∀ it ∈ childItems rel es, noBadMeta it.2 = true
  | _, .nil, _, it, hin => by simp [childItems] at hin
  | rel, .cons n c rest, h, it, hin => by
    have hsplit : noBadMeta c = true ∧ noBadMetaE rest = true := by
      simpa [noBadMetaE] using h
    rcases (by simpa [childItems] using hin :
        it = (rel ++ [n], c) ∨ it ∈ childItems rel rest) with h1 | h2
    · rw [h1]; exact hsplit.1
    · exact childItems_noBadMeta rel rest hsplit.2 it h2

theorem process_node_ok (cfg : Config) (hmf : ∀ p, cfg.moveFails p = false)
    (st : RunState) (rel : List String) (t : FsTree) (hnb : noBadMeta t = true) :
    ∃ cs, (process_node cfg st rel t).2 = .ok cs
      ∧ ∀ it ∈ cs, noBadMeta it.2 = true := by
  unfold process_node move_entry
  cases hexcl : cfg.excl rel with
  | true => exact ⟨[], by simp, by simp⟩
  | false =>
    cases t with
    | badMeta => exact ⟨[], by simp, by simp⟩
    | symlink => exact ⟨[], by simp, by simp⟩
    | special => exact ⟨[], by simp, by simp⟩
    | dirUnreadable =>
      refine ⟨[], ?_, by simp⟩
      simp [is_directory_matching, hexcl]
    | file m sz =>
      cases hf : is_file_matching cfg.time_comparison cfg.now m with
      | false => exact ⟨[], by simp [hf], by simp⟩
      | true =>
        refine ⟨[], ?_, by simp⟩
        cases hd : cfg.dry_run <;>
          simp [hf, hd, handle_dry_run, handle_move, hmf rel, update_stats, Except.map]
    | dir es =>
      cases hd : is_directory_matching cfg.excl cfg.time_comparison cfg.now rel (.dir es) with
      | false =>
        refine ⟨childItems rel es, by simp [hd], ?_⟩
        exact childItems_noBadMeta rel es (by simpa [noBadMeta] using hnb)
      | true =>
        have hin : matchEntries cfg.excl cfg.time_comparison cfg.now rel es = true := by
          have heq2 : is_directory_matching cfg.excl cfg.time_comparison cfg.now rel
              (.dir es) = matchEntries cfg.excl cfg.time_comparison cfg.now rel es := by
            simp [is_directory_matching, hexcl]
          exact heq2 ▸ hd
        obtain ⟨n, hsz⟩ := sizeEntries_ok_of_match cfg.excl cfg.time_comparison cfg.now
          rel es (by simpa [noBadMeta] using hnb) hin
        refine ⟨[], ?_, by simp⟩
        cases hdry : cfg.dry_run <;>
          simp [hd, hdry, handle_dry_run, handle_move, hmf rel, update_stats,
            calculate_directory_size, hsz, Except.map]

theorem process_level_ok (cfg : Config) (hmf : ∀ p, cfg.moveFails p = false) :
    ∀ (items : List (List String × FsTree)) (st : RunState),
      (∀ it ∈ items, noBadMeta it.2 = true) →
      ∀ r ∈ (process_current_level cfg st items).2,
        ∃ cs, r = .ok cs ∧ ∀ it ∈ cs, noBadMeta it.2 = true
  | [], st, _, r, hr => by simp [process_current_level] at hr
  | (rel, t) :: rest, st, hinv, r, hr => by
    have hr2 : r = (process_node cfg st rel t).2
        ∨ r ∈ (process_current_level cfg
            (process_node cfg st rel t).1 rest).2 := by
      simpa [process_current_level] using hr
    rcases hr2 with rfl | hmem
    · exact process_node_ok cfg hmf st rel t (hinv (rel, t) (by simp))
    · exact process_level_ok cfg hmf rest (process_node cfg st rel t).1
        (fun it hit => hinv it (by simp [hit])) r hmem

theorem collect_ok :
    ∀ rs : List (Except RunError (List (List String × FsTree))),
      (∀ r ∈ rs, ∃ cs, r = .ok cs ∧ ∀ it ∈ cs, noBadMeta it.2 = true) →
      ∃ all, collectChildren rs = .ok all ∧ ∀ it ∈ all, noBadMeta it.2 = true
  | [], _ => ⟨[], rfl, by simp⟩
  | r :: rest, h => by
    obtain ⟨cs, hcs, hinv⟩ := h r (by simp)
    obtain ⟨all, hall, hallinv⟩ := collect_ok rest (fun r2 hr2 => h r2 (by simp [hr2]))
    subst hcs
    refine ⟨cs ++ all, ?_, ?_⟩
    · simp [collectChildren, hall]
    · intro it hit
      rcases List.mem_append.mp hit with h1 | h2
      exacts [hinv it h1, hallinv it h2]

theorem bfs_ok (cfg : Config) (hmf : ∀ p, cfg.moveFails p = false) :
    ∀ (fuel : Nat) (queue : List (List String × FsTree)) (st : RunState),
      (∀ it ∈ queue, noBadMeta it.2 = true) →
      (bfs_and_process cfg fuel st queue).2 = .ok ()
  | 0, [], _, _ => rfl
  | _ + 1, [], _, _ => rfl
  | 0, _ :: _, _, _ => rfl
  | fuel + 1, q :: qs, st, hinv => by
    have hres := process_level_ok cfg hmf (q :: qs) st hinv
    obtain ⟨all, hall, hallinv⟩ := collect_ok _ hres
    unfold bfs_and_process
    dsimp only
    simp only [hall]
    exact bfs_ok cfg hmf fuel all (process_current_level cfg st (q :: qs)).1 hallinv

/-- Claim C9 counterexample: `execute` can return an error although no
relocation step failed.  In `cfgC9` the rename oracle is constantly
false, yet the run on `srcC9` errors: directory `d` qualifies (its
unreadable entry `x` is skipped during qualification), `d` is renamed
successfully, the directory counter is incremented, and then the
post-relocation directory-size computation of `update_stats` hits the
unreadable entry and that `io::Result` error propagates out of
`execute` — also contradicting the part of the claim that says
metadata-read errors never make `execute` return an error. -/
theorem c9_counterexample :
    execute cfgC9 2 srcC9 .nil
      = ((Entries.nil, srcC9), ⟨0, 1, 0⟩, .error .statFail) := rfl

/-- Claim C9 as amended: (1) when no rename or parent-directory
creation fails and no node of either root has unreadable metadata,
`execute` returns success — per-node errors during traversal
(unreadable directory listings, unreadable modification times) are
recovered by skipping the node; and (2) a failed relocation ends the
run at that level: in the concrete `cfgC9b` run the level-one file `f1`
is relocated and stays relocated, the level-two rename of `A/bad` fails
and becomes the result of `execute`, and the qualifying level-three
file `f3` is never visited and never moved. -/
theorem c9_error_propagation (cfg : Config) (fuel : Nat) (src tmp : Entries)
    (hmf : ∀ p, cfg.moveFails p = false)
    (h1 : noBadMetaE src = true) (h2 : noBadMetaE tmp = true) :
    ((execute cfg fuel src tmp).2.2 = .ok ())
    ∧ (execute cfgC9b 3 srcC9b .nil
        = ((.cons "A" (.dir (.cons "bad" (.file (some 0) 7)
              (.cons "sub" (.dir (.cons "f3" (.file (some 0) 11)
                (.cons "new" (.file (some 172800) 1) .nil))) .nil))) .nil,
            .cons "f1" (.file (some 0) 3) .nil),
           ⟨1, 0, 3⟩, .error (.renameFail ["A", "bad"]))) := by
  constructor
  · unfold execute
    cases hm : cfg.mode
    · show (process_files cfg fuel src tmp).2.2 = .ok ()
      unfold process_files
      dsimp only
      exact bfs_ok cfg hmf fuel (initialize_queue src) ⟨src, tmp, ⟨0, 0, 0⟩⟩
        (childItems_noBadMeta [] src h1)
    · show ((fun p : (Entries × Entries) × FileStats × Except RunError Unit =>
            ((p.1.2, p.1.1), p.2))
          (process_files cfg fuel tmp src)).2.2 = Except.ok ()
      unfold process_files
      dsimp only
      exact bfs_ok cfg hmf fuel (initialize_queue tmp) ⟨tmp, src, ⟨0, 0, 0⟩⟩
        (childItems_noBadMeta [] tmp h2)
  · rfl

/-- Witness for claim C9 at a concrete input: a one-file source tree
with no unreadable nodes and a never-failing rename oracle. -/
theorem c9_witness :
    ((execute cfgC9 2 (.cons "a" (.file (some 0) 1) .nil) .nil).2.2 = .ok ())
    ∧ (execute cfgC9b 3 srcC9b .nil
        = ((.cons "A" (.dir (.cons "bad" (.file (some 0) 7)
              (.cons "sub" (.dir (.cons "f3" (.file (some 0) 11)
                (.cons "new" (.file (some 172800) 1) .nil))) .nil))) .nil,
            .cons "f1" (.file (some 0) 3) .nil),
           ⟨1, 0, 3⟩, .error (.renameFail ["A", "bad"]))) :=
  c9_error_propagation cfgC9 2 (.cons "a" (.file (some 0) 1) .nil) .nil
    (fun _ => rfl) rfl rfl
